import Mathlib

/-!
Verification of the realtime streaming session client.

This file gives a shallow embedding of the core of `src/realtime/__init__.py`
(`AudioProcessor`, `EventManager`, `ConversationManager`,
`RealtimeWebSocketClient`) and of `RealtimeErrorHandler.with_retry` from
`src/utils/realtime_helpers.py`, and proves properties of that embedding.

Modelling conventions:
- Python dictionaries are association lists `List (String × α)` with
  insertion-order semantics (`assocSet` overwrites in place or appends).
- A Python exception raised to the caller is `Except.error` of a `PyExc`
  value; a `try ... except` block is a `match` on the `Except`.
- JSON-shaped payload values are the inductive `RVal`.  Where the source
  serializes a value with `json.dumps` before sending, the model keeps the
  structured value itself (serialization is an injective renaming that no
  verified property depends on).
- Real time (the 10-second session wait, sleep durations) is embedded as
  data: a boolean "the awaited event arrived within the timeout window",
  and the list of requested backoff delays.
-/

namespace Realtime

/-- Model of a Python exception value: the exception class together with its
message. -/
inductive PyExc
  | timeoutError (msg : String)
  | valueError (msg : String)
  | runtimeError (msg : String)
  | otherExc (msg : String)
deriving DecidableEq

/-- Model of `RealtimeWebSocketClient._wait_for_session`: the polling loop
sleeps in 0.1s steps until `self.session_created` is set or more than
`timeout` seconds have elapsed, in which case it raises
`TimeoutError("Session creation timeout")`.  The loop is embedded by the
boolean `sessionCreatedWithin`: whether a `session.created` inbound event was
processed within the timeout window. -/
def wait_for_session (sessionCreatedWithin : Bool) : Except PyExc Unit :=
  if sessionCreatedWithin then Except.ok ()
  else Except.error (PyExc.timeoutError "Session creation timeout")

/-- Model of `RealtimeWebSocketClient.connect`: the body opens the transport
(`transportConnect`), starts the receive loop, waits for the session
(`wait_for_session`), then pushes the session configuration
(`sessionUpdate`) and returns `True`; the surrounding
`except Exception: ... return False` converts every raised exception into an
ordinary `False` return. -/
def connect (transportConnect : Except PyExc Unit) (sessionCreatedWithin : Bool)
    (sessionUpdate : Except PyExc Unit) : Except PyExc Bool :=
  match (do
      let _ ← transportConnect
      let _ ← wait_for_session sessionCreatedWithin
      let _ ← sessionUpdate
      pure true : Except PyExc Bool) with
  | Except.ok b => Except.ok b
  | Except.error _ => Except.ok false

/-- Result of a `RealtimeErrorHandler.with_retry` run: the returned value or
re-raised last exception, the final `error_counts` dictionary (as a total
count function), the sequence of `asyncio.sleep` delays requested between
attempts, and the number of times the operation was invoked. -/
structure RetryResult (α : Type) where
  result : Except String α
  counts : String → Nat
  sleeps : List ℚ
  calls : Nat

/-- Model of `self.error_counts[error_type] = self.error_counts.get(error_type, 0) + 1`. -/
def bumpCount (counts : String → Nat) (e : String) : String → Nat :=
  fun t => if t = e then counts t + 1 else counts t

/-- Loop body of `RealtimeErrorHandler.with_retry`.  `op n` is the outcome of
the `n`-th invocation of the operation (0-based), `rem` the number of loop
iterations still to run (`with_retry` starts it at `max_retries + 1`, so the
`0` case is never reached from the entry point).  A failed attempt bumps the
error counter; every failed attempt except the last sleeps
`retry_delay * 2 ^ attempt`; the last failure is re-raised. -/
def with_retry_go {α : Type} (op : Nat → Except String α) (b : ℚ)
    (counts : String → Nat) (sleeps : List ℚ) (attempt : Nat) :
    Nat → RetryResult α
  | 0 => ⟨Except.error "", counts, sleeps, attempt⟩
  | 1 =>
    match op attempt with
    | Except.ok v => ⟨Except.ok v, counts, sleeps, attempt + 1⟩
    | Except.error e => ⟨Except.error e, bumpCount counts e, sleeps, attempt + 1⟩
  | (r + 2) =>
    match op attempt with
    | Except.ok v => ⟨Except.ok v, counts, sleeps, attempt + 1⟩
    | Except.error e =>
      with_retry_go op b (bumpCount counts e) (sleeps ++ [b * 2 ^ attempt])
        (attempt + 1) (r + 1)

/-- Model of `RealtimeErrorHandler.with_retry` with `max_retries = maxRetries`
and `retry_delay = baseDelay`, starting from empty error counts. -/
def with_retry {α : Type} (op : Nat → Except String α) (maxRetries : Nat)
    (baseDelay : ℚ) : RetryResult α :=
  with_retry_go op baseDelay (fun _ => 0) [] 0 (maxRetries + 1)

/-- Whether an attempt outcome is a raised exception. -/
def isErr {α : Type} (r : Except String α) : Bool :=
  match r with
  | Except.error _ => true
  | Except.ok _ => false

/-- Whether an attempt outcome is a raised exception whose error type is `t`. -/
def isErrNamed {α : Type} (r : Except String α) (t : String) : Bool :=
  match r with
  | Except.error e => e == t
  | Except.ok _ => false

/-- Number of failures of error type `t` among attempts
`attempt, attempt+1, ..., attempt+k-1`. -/
def errCountRange {α : Type} (op : Nat → Except String α) (attempt k : Nat)
    (t : String) : Nat :=
  (List.range k).countP (fun i => isErrNamed (op (attempt + i)) t)

/-- Event dispatcher handlers: a handler identity together with its callback
(`Except.error` models a handler that raises; the emit loop catches it). -/
def EvHandler (P : Type) : Type := Nat × (P → Except String Unit)

/-- Model of `EventManager.handlers`, a `defaultdict(list)` keyed by event
type. -/
def HandlerMap (P : Type) : Type := String → List (EvHandler P)

/-- Fresh `EventManager` handler table: every event type maps to `[]`. -/
def emptyHandlers (P : Type) : HandlerMap P := fun _ => []

/-- Model of `EventManager.register_handler`: appends the handler to the list
for its event type. -/
def register_handler {P : Type} (m : HandlerMap P) (ty : String)
    (h : EvHandler P) : HandlerMap P :=
  fun t => if t = ty then m t ++ [h] else m t

/-- Model of `EventManager.emit_event` restricted to the handler list for the
emitted type: each handler is invoked in order inside a `try`/`except`, so an
`Except.error` outcome is recorded (logged) and the loop continues with the
next handler; the returned trace lists every invocation in order. -/
def emit_event {P : Type} : List (EvHandler P) → P → List (Nat × Except String Unit)
  | [], _ => []
  | h :: rest, p => (h.1, h.2 p) :: emit_event rest p

/-- Handler table produced by a sequence of `register_handler` calls on a
fresh `EventManager`. -/
def registerAll {P : Type} (regs : List (String × EvHandler P)) : HandlerMap P :=
  regs.foldl (fun m r => register_handler m r.1 r.2) (emptyHandlers P)

/-- Concrete operation for the retry witness: fails twice with error type
`"E"`, then succeeds with value 42. -/
def opW : Nat → Except String Nat :=
  fun i => if i < 2 then Except.error "E" else Except.ok 42

/-- Standard base64 alphabet, as used by `base64.b64encode`. -/
def b64Alphabet : List Char :=
  "ABCDEFGHIJKLMNOPQRSTUVWXYZabcdefghijklmnopqrstuvwxyz0123456789+/".toList

/-- Character for a sextet value. -/
def encChar (s : Nat) : Char := b64Alphabet.getD s 'A'

/-- Sextet value of an alphabet character; `none` for foreign characters. -/
def decChar (c : Char) : Option Nat :=
  let i := b64Alphabet.indexOf c
  if i < 64 then some i else none

/-- Model of `base64.b64encode` on a byte list: 3-byte blocks become 4
characters, a trailing 1- or 2-byte block is padded with `=`. -/
def b64EncodeBytes : List Nat → List Char
  | [] => []
  | [a] => [encChar (a / 4), encChar (a % 4 * 16), '=', '=']
  | [a, b] => [encChar (a / 4), encChar (a % 4 * 16 + b / 16), encChar (b % 16 * 4), '=']
  | a :: b :: c :: rest =>
    encChar (a / 4) :: encChar (a % 4 * 16 + b / 16) ::
      encChar (b % 16 * 4 + c / 64) :: encChar (c % 64) :: b64EncodeBytes rest

/-- Decoding of 4-character base64 groups, with `=` padding allowed in the
final group only. -/
def b64DecodeGroups : List Char → Option (List Nat)
  | [] => some []
  | c1 :: c2 :: c3 :: c4 :: rest =>
    if c3 = '=' ∧ c4 = '=' ∧ rest = [] then do
      let s1 ← decChar c1
      let s2 ← decChar c2
      pure [s1 * 4 + s2 / 16]
    else if c4 = '=' ∧ rest = [] then do
      let s1 ← decChar c1
      let s2 ← decChar c2
      let s3 ← decChar c3
      pure [s1 * 4 + s2 / 16, s2 % 16 * 16 + s3 / 4]
    else do
      let s1 ← decChar c1
      let s2 ← decChar c2
      let s3 ← decChar c3
      let s4 ← decChar c4
      let tl ← b64DecodeGroups rest
      pure ((s1 * 4 + s2 / 16) :: (s2 % 16 * 16 + s3 / 4) :: (s3 % 4 * 64 + s4) :: tl)
  | _ => none

/-- Characters `base64.b64decode` keeps before decoding: alphabet members and
the padding character. -/
def b64KeepChar (c : Char) : Bool := (decChar c).isSome || c == '='

/-- Model of `base64.b64decode`: foreign characters are discarded, then the
length must be a multiple of 4 (otherwise `binascii.Error`, i.e. `none`),
then the 4-character groups are decoded. -/
def b64Decode (s : List Char) : Option (List Nat) :=
  if (s.filter b64KeepChar).length % 4 = 0 then b64DecodeGroups (s.filter b64KeepChar)
  else none

/-- `np.clip(x, -1.0, 1.0)` on one sample. -/
def ratClip (x : ℚ) : ℚ := min 1 (max (-1) x)

/-- `astype(np.int16)` on a clipped, scaled sample: C-style truncation toward
zero (the value is within the int16 range after clipping). -/
def ratTrunc (q : ℚ) : Int := if 0 ≤ q then Int.floor q else Int.ceil q

/-- Model of `AudioProcessor.convert_float32_to_pcm16` on a float32 array
(samples as rationals): clip each sample to [-1.0, 1.0], scale by 32767,
truncate to int16. -/
def convert_float32_to_pcm16 (xs : List ℚ) : List Int :=
  xs.map (fun x => ratTrunc (ratClip x * 32767))

/-- Little-endian byte pair of one int16 value, as laid out by
`ndarray.tobytes()`. -/
def int16ToBytes (v : Int) : List Nat :=
  [((v % 65536).toNat) % 256, ((v % 65536).toNat) / 256]

/-- `ndarray.tobytes()` of an int16 array. -/
def int16ListToBytes : List Int → List Nat
  | [] => []
  | v :: rest => int16ToBytes v ++ int16ListToBytes rest

/-- Model of `AudioProcessor.encode_audio_to_base64` on a float32 ndarray:
the samples pass through `convert_float32_to_pcm16`, are laid out as bytes,
and base64-encoded. -/
def encode_audio_to_base64_float (xs : List ℚ) : List Char :=
  b64EncodeBytes (int16ListToBytes (convert_float32_to_pcm16 xs))

/-- Model of `AudioProcessor.encode_audio_to_base64` on raw bytes or a
non-float ndarray: the bytes are base64-encoded unchanged. -/
def encode_audio_to_base64_bytes (bs : List Nat) : List Char := b64EncodeBytes bs

/-- Model of `AudioProcessor.decode_base64_audio`:
`np.frombuffer(base64.b64decode(s), np.uint8)`; a decode error is logged and
yields the empty array. -/
def decode_base64_audio (s : List Char) : List Nat := (b64Decode s).getD []

/-- JSON-shaped payload values. -/
inductive RVal
  | null
  | vstr (s : String)
  | vint (n : Int)
  | vbool (b : Bool)
  | varr (xs : List RVal)
  | obj (fields : List (String × RVal))

/-- Python dict with string keys, as an insertion-ordered association list. -/
abbrev Dict := List (String × RVal)

/-- Python dict assignment `d[k] = v`: overwrites the entry in place when the
key exists, otherwise appends at the end. -/
def assocSet {α : Type} (d : List (String × α)) (k : String) (v : α) :
    List (String × α) :=
  if d.any (fun kv => kv.1 == k) then
    d.map (fun kv => if kv.1 == k then (k, v) else kv)
  else d ++ [(k, v)]

/-- Python `{**d, **upd}`: the entries of `upd` assigned into `d` from left
to right, so `upd` overrides `d` on shared keys. -/
def pyMergeInto {α : Type} (d : List (String × α)) (upd : List (String × α)) :
    List (String × α) :=
  upd.foldl (fun acc kv => assocSet acc kv.1 kv.2) d

/-- The outbound event dict built by `send_event`:
`{"event_id": eid, "type": ty, **data}` — entries of `data` override the
generated fields because they are merged last. -/
def mkEvent (eid ty : String) (data : Dict) : Dict :=
  pyMergeInto [("event_id", RVal.vstr eid), ("type", RVal.vstr ty)] data

/-- Model of `RealtimeWebSocketClient.send_event`: raises `RuntimeError` when
the websocket is absent, otherwise builds and sends the event dict (returned
so that callers can collect the outbound trace); `eid` stands for the
freshly generated `generate_event_id()` value. -/
def send_event (ws : Bool) (eid ty : String) (data : Dict) : Except PyExc Dict :=
  if ws then Except.ok (mkEvent eid ty data)
  else Except.error (PyExc.runtimeError "WebSocket not connected")

/-- One entry of an item's raw `content` array: its `type` and its `text`
(read with `content.get("text", "")`). -/
structure ContentPart where
  typ : String
  text : String
deriving DecidableEq

/-- The fields of a conversation item dict that the client reads: absent keys
are `none`. -/
structure Item where
  id : Option String
  typ : Option String
  role : Option String
  status : Option String
  name : Option String
  call_id : Option String
  content : List ContentPart
deriving DecidableEq

/-- The `formatted["tool"]` accumulator of a function-call item. -/
structure ToolAcc where
  arguments : String
deriving DecidableEq

/-- The `formatted` accumulator attached by `add_item`. -/
structure Formatted where
  audio : List (List Nat)
  text : String
  transcript : String
  tool : Option ToolAcc
deriving DecidableEq

/-- A stored conversation item: the copied raw item plus its formatted
accumulator. -/
structure FItem where
  base : Item
  formatted : Formatted
deriving DecidableEq

/-- State of a `ConversationManager`.  `item_lookup` maps an id to the index
of its item in `items`, modelling that in the source the dict and the list
alias the same item object. -/
structure ConvState where
  sample_rate : Nat
  items : List FItem
  item_lookup : List (String × Nat)
  responses : List RVal
  response_lookup : List (String × RVal)
  audio_queue : List (String × RVal)
  transcript_queue : List (String × RVal)
  pending_audio : Option (List Nat)

/-- Model of `ConversationManager.reset`: clears the items, both lookups, the
queues and the pending-audio marker (the sample rate is untouched). -/
def ConvState.resetState (cs : ConvState) : ConvState :=
  { sample_rate := cs.sample_rate, items := [], item_lookup := [], responses := [],
    response_lookup := [], audio_queue := [], transcript_queue := [],
    pending_audio := none }

/-- Python truthiness of an optional string: `None` and `""` are falsy. -/
def pyFalsyStr (o : Option String) : Bool :=
  match o with
  | none => true
  | some s => s.isEmpty

/-- Initial formatted text of a new item: concatenation of the text of
content parts whose type is `"text"` or `"input_text"`. -/
def contentText (ps : List ContentPart) : String :=
  ps.foldl
    (fun acc p => if p.typ == "text" || p.typ == "input_text" then acc ++ p.text else acc) ""

/-- Model of `ConversationManager.add_item`: rejects an item with a falsy id
(returns `none` and leaves the state unchanged); otherwise copies the item,
attaches the formatted accumulator, indexes it by id and appends it to the
item list. -/
def ConvState.add_item (cs : ConvState) (item : Item) : ConvState × Option FItem :=
  if pyFalsyStr item.id then (cs, none)
  else
    let iid := item.id.getD ""
    let fi : FItem :=
      { base := item,
        formatted :=
          { audio := [], text := contentText item.content, transcript := "", tool := none } }
    ({ cs with
        item_lookup := assocSet cs.item_lookup iid cs.items.length,
        items := cs.items ++ [fi] }, some fi)

/-- In-place mutation of the list element at an index (identity when the
index is out of range). -/
def listModify {α : Type} : List α → Nat → (α → α) → List α
  | [], _, _ => []
  | x :: xs, 0, f => f x :: xs
  | x :: xs, n + 1, f => x :: listModify xs n f

/-- Model of `ConversationManager.get_item` (`item_lookup.get(item_id)`):
resolves the id through the index. -/
def ConvState.get_item (cs : ConvState) (iid : Option String) : Option FItem :=
  match iid with
  | none => none
  | some s => (cs.item_lookup.lookup s).bind (fun ix => cs.items.get? ix)

/-- Model of `ConversationManager.update_item_audio`: appends an audio chunk
to the item's formatted accumulator; `false` when the id is unknown. -/
def ConvState.update_item_audio (cs : ConvState) (iid : String) (chunk : List Nat) :
    ConvState × Bool :=
  match cs.item_lookup.lookup iid with
  | some ix =>
    ({ cs with items := listModify cs.items ix (fun it =>
        { it with formatted := { it.formatted with audio := it.formatted.audio ++ [chunk] } }) },
      true)
  | none => (cs, false)

/-- Model of `ConversationManager.update_item_text`: concatenates a text
delta onto the item's formatted text; `false` when the id is unknown. -/
def ConvState.update_item_text (cs : ConvState) (iid : String) (delta : String) :
    ConvState × Bool :=
  match cs.item_lookup.lookup iid with
  | some ix =>
    ({ cs with items := listModify cs.items ix (fun it =>
        { it with formatted := { it.formatted with text := it.formatted.text ++ delta } }) },
      true)
  | none => (cs, false)

/-- Model of `ConversationManager.update_item_transcript`: concatenates a
transcript delta onto the item's formatted transcript; `false` when the id
is unknown. -/
def ConvState.update_item_transcript (cs : ConvState) (iid : String) (delta : String) :
    ConvState × Bool :=
  match cs.item_lookup.lookup iid with
  | some ix =>
    ({ cs with items := listModify cs.items ix (fun it =>
        { it with formatted := { it.formatted with transcript := it.formatted.transcript ++ delta } }) },
      true)
  | none => (cs, false)

/-- A tool definition dict: `name` is the value of its `"name"` entry (read
as a string, `none` when missing), `raw` the full definition payload that
`update_session` republishes. -/
structure ToolDef where
  name : Option String
  raw : Dict

/-- A registered tool as stored in `self.tools`: its definition and handler;
`handler = none` models a `None` or non-callable handler value. -/
structure ToolCfg where
  definition : ToolDef
  handler : Option (List (String × RVal) → Except String RVal)

/-- State of a `RealtimeWebSocketClient`: `websocket` models
`self.websocket is not None` (and the `is_connected()` check). -/
structure ClientState where
  websocket : Bool
  session_created : Bool
  tools : List (String × ToolCfg)
  session_config : Dict
  audio_buffer : List Nat
  conversation : ConvState

/-- The `{**definition, "type": "function"}` entry pushed for a registered
tool by `update_session`. -/
def toolEntry (d : ToolDef) : RVal :=
  RVal.obj (assocSet d.raw "type" (RVal.vstr "function"))

/-- Model of `RealtimeWebSocketClient.update_session`: merges the keyword
patch into the session config and sends one `session.update` event carrying
the config together with the rendered tool list. -/
def update_session (st : ClientState) (kwargs : Dict) (eid : String) :
    Except PyExc (ClientState × List Dict) :=
  let st1 := { st with session_config := pyMergeInto st.session_config kwargs }
  let sessionData :=
    assocSet st1.session_config "tools"
      (RVal.varr (st1.tools.map (fun kv => toolEntry kv.2.definition)))
  match send_event st1.websocket eid "session.update" [("session", RVal.obj sessionData)] with
  | Except.ok e => Except.ok (st1, [e])
  | Except.error ex => Except.error ex

/-- Model of `RealtimeWebSocketClient.add_tool`.  The triple holds the raised
exception or stored tool config, the client state afterwards, and the events
sent (an `update_session` push happens only when connected). -/
def add_tool (st : ClientState) (defn : ToolDef)
    (handler : Option (List (String × RVal) → Except String RVal)) (eid : String) :
    Except PyExc ToolCfg × ClientState × List Dict :=
  if pyFalsyStr defn.name then
    (Except.error (PyExc.valueError "Tool definition must include a name"), st, [])
  else
    let n := defn.name.getD ""
    if (st.tools.lookup n).isSome then
      (Except.error (PyExc.valueError ("Tool already exists: " ++ n)), st, [])
    else
      let cfg : ToolCfg := { definition := defn, handler := handler }
      let st1 := { st with tools := assocSet st.tools n cfg }
      if st1.websocket then
        match update_session st1 [] eid with
        | Except.ok (st2, evs) => (Except.ok cfg, st2, evs)
        | Except.error ex => (Except.error ex, st1, [])
      else (Except.ok cfg, st1, [])

/-- The client state after the non-empty branch of `commit_audio`: the
committed bytes are stored as the pending-audio marker
(`self.conversation.pending_audio = bytes(self.audio_buffer)`) and the
buffer is cleared. -/
def commitTarget (st : ClientState) : ClientState :=
  { st with
    conversation := { st.conversation with pending_audio := some st.audio_buffer },
    audio_buffer := [] }

/-- Model of `RealtimeWebSocketClient.commit_audio`: when the local buffer is
non-empty, sends `input_audio_buffer.commit`, stores the committed bytes in
the pending-audio marker, clears the buffer; in every case finishes by
sending one `response.create`. -/
def commit_audio (st : ClientState) (eid1 eid2 : String) :
    Except PyExc (ClientState × List Dict) :=
  if st.audio_buffer.isEmpty then
    match send_event st.websocket eid2 "response.create" [] with
    | Except.ok e2 => Except.ok (st, [e2])
    | Except.error ex => Except.error ex
  else
    match send_event st.websocket eid1 "input_audio_buffer.commit" [] with
    | Except.error ex => Except.error ex
    | Except.ok e1 =>
      let st1 := commitTarget st
      match send_event st1.websocket eid2 "response.create" [] with
      | Except.ok e2 => Except.ok (st1, [e1, e2])
      | Except.error ex => Except.error ex

/-- Model of `RealtimeWebSocketClient.disconnect`: closes and drops the
websocket when present, clears the session-created flag, resets the
conversation, clears the audio buffer.  A second call skips the close since
the websocket is already gone; nothing on this path can raise. -/
def disconnect (st : ClientState) : ClientState :=
  { st with
    websocket := false, session_created := false,
    conversation := st.conversation.resetState, audio_buffer := [] }

/-- Accumulated argument string of a function-call item:
`item["formatted"].get("tool", {}).get("arguments", "{}")`. -/
def argsStringOf (it : FItem) : String :=
  match it.formatted.tool with
  | some t => t.arguments
  | none => "\x7b\x7d"

/-- The `function_name in self.tools` lookup; a missing `name` key is never a
registered key. -/
def lookupTool (tools : List (String × ToolCfg)) (name : Option String) :
    Option ToolCfg :=
  match name with
  | none => none
  | some n => tools.lookup n

/-- JSON rendering of an optional string (`None` becomes JSON null). -/
def optStr : Option String → RVal
  | none => RVal.null
  | some s => RVal.vstr s

/-- Model of `RealtimeWebSocketClient.send_function_result`: sends one
`conversation.item.create` carrying a `function_call_output` item with the
call id and the result (the source serializes the result with `json.dumps`;
the model keeps the structured value), then one `response.create`. -/
def send_function_result (ws : Bool) (eid1 eid2 : String) (call_id : Option String)
    (result : RVal) : Except PyExc (List Dict) :=
  match send_event ws eid1 "conversation.item.create"
      [("item", RVal.obj [("type", RVal.vstr "function_call_output"),
        ("call_id", optStr call_id), ("output", result)])] with
  | Except.error ex => Except.error ex
  | Except.ok e1 =>
    match send_event ws eid2 "response.create" [] with
    | Except.error ex => Except.error ex
    | Except.ok e2 => Except.ok [e1, e2]

/-- `handler(**args)`: raises like Python when the parsed arguments are not
an object; a handler exception is an `Except.error` carrying `str(e)`. -/
def callKwargs (h : List (String × RVal) → Except String RVal) (args : RVal) :
    Except String RVal :=
  match args with
  | RVal.obj fs => h fs
  | _ => Except.error "arguments do not form an object"

/-- Model of `RealtimeWebSocketClient._execute_function_call`.  `parse`
models `json.loads` on the accumulated argument string (`none` for a
`JSONDecodeError`; the model uses a fixed message for its `str(e)`).  The
outer `try`/`except` converts any escaped exception into a logged no-op, so
the dispatcher never throws to its caller. -/
def execute_function_call (ws : Bool) (tools : List (String × ToolCfg))
    (parse : String → Option RVal) (eid1 eid2 : String) (it : FItem) : List Dict :=
  let body : Except PyExc (List Dict) :=
    match lookupTool tools it.base.name with
    | some cfg =>
      match cfg.handler with
      | some h =>
        match parse (argsStringOf it) with
        | some args =>
          match callKwargs h args with
          | Except.ok result => send_function_result ws eid1 eid2 it.base.call_id result
          | Except.error msg =>
            send_function_result ws eid1 eid2 it.base.call_id
              (RVal.obj [("error", RVal.vstr msg)])
        | none =>
          send_function_result ws eid1 eid2 it.base.call_id
            (RVal.obj [("error", RVal.vstr "Invalid JSON arguments")])
      | none =>
        send_function_result ws eid1 eid2 it.base.call_id
          (RVal.obj [("error", RVal.vstr "Function handler not found")])
    | none =>
      send_function_result ws eid1 eid2 it.base.call_id
        (RVal.obj [("error", RVal.vstr ("Unknown function: " ++ (it.base.name.getD "None")))])
  match body with
  | Except.ok evs => evs
  | Except.error _ => []

/-- Inbound server events dispatched by
`RealtimeWebSocketClient._handle_server_event`, with the payload fields the
handler reads. -/
inductive InEvent
  | sessionCreated
  | itemCreated (item : Option Item)
  | audioDelta (item_id : Option String) (delta : Option String)
  | textDelta (item_id : Option String) (delta : Option String)
  | transcriptDelta (item_id : Option String) (delta : Option String)
  | speechStarted
  | fnArgsDelta (item_id : Option String) (delta : Option String)
  | outputItemDone (item : Option Item)
  | errorEvt
  | otherEvt (ty : String)
deriving DecidableEq

/-- The session/conversation state effect of
`RealtimeWebSocketClient._handle_server_event` on one inbound event.
Handler emissions are modelled separately by `emit_event`, and
`_execute_function_call` (run from the output-item-done branch for
function-call items) only sends events and does not touch this state. -/
def handle_server_event_state (st : ClientState) (e : InEvent) : ClientState :=
  match e with
  | InEvent.sessionCreated => { st with session_created := true }
  | InEvent.itemCreated item? =>
    match item? with
    | some it => { st with conversation := (st.conversation.add_item it).1 }
    | none => st
  | InEvent.audioDelta iid delta =>
    if pyFalsyStr iid || pyFalsyStr delta then st
    else { st with conversation :=
      (st.conversation.update_item_audio (iid.getD "")
        (decode_base64_audio (delta.getD "").toList)).1 }
  | InEvent.textDelta iid delta =>
    if pyFalsyStr iid || pyFalsyStr delta then st
    else { st with conversation :=
      (st.conversation.update_item_text (iid.getD "") (delta.getD "")).1 }
  | InEvent.transcriptDelta iid delta =>
    if pyFalsyStr iid || pyFalsyStr delta then st
    else { st with conversation :=
      (st.conversation.update_item_transcript (iid.getD "") (delta.getD "")).1 }
  | InEvent.speechStarted => st
  | InEvent.fnArgsDelta iid delta =>
    if pyFalsyStr iid || pyFalsyStr delta then st
    else
      match st.conversation.item_lookup.lookup (iid.getD "") with
      | some ix =>
        let f : FItem → FItem := fun it =>
          let t0 := it.formatted.tool.getD { arguments := "" }
          { it with formatted :=
              { it.formatted with
                tool := some { arguments := t0.arguments ++ delta.getD "" } } }
        { st with conversation :=
            { st.conversation with items := listModify st.conversation.items ix f } }
      | none => st
  | InEvent.outputItemDone item? =>
    match item? with
    | none => st
    | some it =>
      match it.id with
      | none => st
      | some s =>
        match st.conversation.item_lookup.lookup s with
        | none => st
        | some ix =>
          let f : FItem → FItem := fun ci =>
            { ci with base := { ci.base with status := some "completed" } }
          { st with conversation :=
              { st.conversation with items := listModify st.conversation.items ix f } }
  | InEvent.errorEvt => st
  | InEvent.otherEvt _ => st

/-- Receive-loop state evolution over a list of inbound events. -/
def runEvents (st : ClientState) (es : List InEvent) : ClientState :=
  es.foldl handle_server_event_state st

/-- Whether an inbound event is a `conversation.item.created` carrying the id
`n` (re-adding that id). -/
def recreatesId (n : String) (e : InEvent) : Bool :=
  match e with
  | InEvent.itemCreated (some it) => it.id == some n
  | _ => false

/-- Whether an inbound event is a `response.output_item.done` whose item has
id `n`. -/
def isDoneFor (n : String) (e : InEvent) : Bool :=
  match e with
  | InEvent.outputItemDone (some it) => it.id == some n
  | _ => false

/-- The status of the conversation item with id `n`, as seen through
`get_item`. -/
def statusView (st : ClientState) (n : String) : Option (Option String) :=
  (st.conversation.get_item (some n)).map (fun fi => fi.base.status)

/-- A non-completed to completed transition of item `n` across step `k` of an
event sequence. -/
def transitionAt (st : ClientState) (es : List InEvent) (n : String) (k : Nat) : Prop :=
  statusView (runEvents st (es.take k)) n ≠ some (some "completed")
  ∧ statusView (runEvents st (es.take (k + 1))) n = some (some "completed")

/-- Whether an outbound event dict is a `response.create` event. -/
def isRespCreate (d : Dict) : Bool :=
  match d.lookup "type" with
  | some (RVal.vstr s) => s == "response.create"
  | _ => false

/-- Concrete payload for the send_event override witness: it supplies both a
`type` and an `event_id` entry of its own. -/
def dataW : Dict := [("type", RVal.vstr "custom.type"), ("event_id", RVal.vstr "custom.id")]

/-- Concrete registered tool for the duplicate-registration witness. -/
def cfg0W : ToolCfg := { definition := { name := some "t", raw := [] }, handler := none }

/-- Fresh conversation state (as built by `ConversationManager.__init__`). -/
def convInit : ConvState :=
  { sample_rate := 24000, items := [], item_lookup := [], responses := [],
    response_lookup := [], audio_queue := [], transcript_queue := [],
    pending_audio := none }

/-- Concrete client state with one registered tool named `"t"`. -/
def stW6 : ClientState :=
  { websocket := false, session_created := false, tools := [("t", cfg0W)],
    session_config := [], audio_buffer := [], conversation := convInit }

/-- Concrete client state with a non-empty audio buffer, connected. -/
def stW8 : ClientState :=
  { websocket := true, session_created := true, tools := [],
    session_config := [], audio_buffer := [1, 2, 3], conversation := convInit }

/-- Concrete completed function-call item whose tool name is unregistered and
whose accumulated arguments are not valid JSON. -/
def itW : FItem :=
  { base :=
      { id := some "item_1", typ := some "function_call", role := none,
        status := none, name := some "nope", call_id := some "call_1", content := [] },
    formatted :=
      { audio := [], text := "", transcript := "",
        tool := some { arguments := "\x7bbad" } } }

/-- Concrete inbound message item that carries no `status` field. -/
def itemA : Item :=
  { id := some "item_1", typ := some "message", role := some "user",
    status := none, name := none, call_id := none, content := [] }

/-- The stored form of `itemA` right after `add_item`. -/
def itemAF : FItem :=
  { base := itemA,
    formatted := { audio := [], text := "", transcript := "", tool := none } }

/-- Concrete client state holding exactly the item `itemA`, as produced by
`add_item` on a fresh conversation. -/
def stW7 : ClientState :=
  { websocket := true, session_created := true, tools := [],
    session_config := [], audio_buffer := [],
    conversation := (convInit.add_item itemA).1 }

theorem errCountRange_succ_left {α : Type} (op : Nat → Except String α)
    (attempt k : Nat) (t : String) :
    errCountRange op attempt (k + 1) t =
      (if isErrNamed (op attempt) t then 1 else 0) +
        errCountRange op (attempt + 1) k t := by
  unfold errCountRange
  rw [List.range_succ_eq_map, List.countP_cons]
  have hmap : (List.map Nat.succ (List.range k)).countP
      (fun i => isErrNamed (op (attempt + i)) t) =
      (List.range k).countP (fun i => isErrNamed (op (attempt + 1 + i)) t) := by
    rw [List.countP_map]
    refine List.countP_congr ?_
    intro i _
    have h : attempt + Nat.succ i = attempt + 1 + i := by omega
    simp [Function.comp, h]
  rw [hmap]
  simp only [Nat.add_zero]
  omega

theorem bumpCount_merge {α : Type} (op : Nat → Except String α)
    (counts : String → Nat) (attempt k : Nat) (e : String)
    (hE : op attempt = Except.error e) :
    (fun t => bumpCount counts e t + errCountRange op (attempt + 1) k t) =
      (fun t => counts t + errCountRange op attempt (k + 1) t) := by
  funext t
  rw [errCountRange_succ_left]
  by_cases ht : t = e
  · subst ht
    simp [bumpCount, isErrNamed, hE]
    omega
  · have hne : isErrNamed (op attempt) t = false := by
      simp only [isErrNamed, hE, beq_eq_false_iff_ne, ne_eq]
      exact fun h => ht h.symm
    simp [bumpCount, ht, hne]

theorem map_range_shift (f : Nat → ℚ) (k : Nat) :
    f 0 :: (List.range k).map (fun i => f (i + 1)) = (List.range (k + 1)).map f := by
  rw [List.range_succ_eq_map, List.map_cons, List.map_map]
  congr 1

theorem sleeps_merge (b : ℚ) (sleeps : List ℚ) (attempt k : Nat) :
    (sleeps ++ [b * 2 ^ attempt]) ++
        (List.range k).map (fun i => b * 2 ^ (attempt + 1 + i)) =
      sleeps ++ (List.range (k + 1)).map (fun i => b * 2 ^ (attempt + i)) := by
  rw [List.append_assoc, List.singleton_append]
  have hfun : (List.range k).map (fun i => b * 2 ^ (attempt + 1 + i)) =
      (List.range k).map (fun i => b * 2 ^ (attempt + (i + 1))) := by
    refine List.map_congr_left ?_
    intro i _
    have h : attempt + 1 + i = attempt + (i + 1) := by omega
    rw [h]
  rw [hfun]
  congr 1
  exact map_range_shift (fun j => b * 2 ^ (attempt + j)) k

theorem with_retry_go_succeeds {α : Type} (op : Nat → Except String α) (b : ℚ) :
    ∀ (k attempt : Nat) (counts : String → Nat) (sleeps : List ℚ) (rem : Nat)
      (v : α), k < rem →
      (∀ i, i < k → isErr (op (attempt + i)) = true) →
      op (attempt + k) = Except.ok v →
      with_retry_go op b counts sleeps attempt rem =
        ⟨Except.ok v, fun t => counts t + errCountRange op attempt k t,
          sleeps ++ (List.range k).map (fun i => b * 2 ^ (attempt + i)),
          attempt + k + 1⟩ := by
  intro k
  induction k with
  | zero =>
    intro attempt counts sleeps rem v hk _ hok
    simp at hok
    match rem, hk with
    | 1, _ =>
      simp [with_retry_go, hok, errCountRange]
    | (r + 2), _ =>
      simp [with_retry_go, hok, errCountRange]
  | succ k ih =>
    intro attempt counts sleeps rem v hk hfail hok
    have h0 : isErr (op attempt) = true := by
      have := hfail 0 (by omega)
      simpa using this
    obtain ⟨e, hE⟩ : ∃ e, op attempt = Except.error e := by
      cases hcase : op attempt with
      | ok w => rw [hcase] at h0; simp [isErr] at h0
      | error e => exact ⟨e, rfl⟩
    match rem, hk with
    | (r + 2), _ =>
      have hrec := ih (attempt + 1) (bumpCount counts e)
        (sleeps ++ [b * 2 ^ attempt]) (r + 1) v (by omega)
        (fun i hi => by
          have := hfail (i + 1) (by omega)
          have harith : attempt + (i + 1) = attempt + 1 + i := by omega
          rwa [harith] at this)
        (by
          have harith : attempt + (k + 1) = attempt + 1 + k := by omega
          rwa [harith] at hok)
      simp only [with_retry_go, hE]
      rw [hrec, bumpCount_merge op counts attempt k e hE,
        sleeps_merge b sleeps attempt k]
      have harith : attempt + 1 + k + 1 = attempt + (k + 1) + 1 := by omega
      rw [harith]

theorem with_retry_go_all_fail {α : Type} (op : Nat → Except String α) (b : ℚ) :
    ∀ (r attempt : Nat) (counts : String → Nat) (sleeps : List ℚ) (e : String),
      (∀ i, i < r → isErr (op (attempt + i)) = true) →
      op (attempt + r) = Except.error e →
      with_retry_go op b counts sleeps attempt (r + 1) =
        ⟨Except.error e, fun t => counts t + errCountRange op attempt (r + 1) t,
          sleeps ++ (List.range r).map (fun i => b * 2 ^ (attempt + i)),
          attempt + r + 1⟩ := by
  intro r
  induction r with
  | zero =>
    intro attempt counts sleeps e _ hlast
    simp only [Nat.add_zero] at hlast
    have hc : bumpCount counts e =
        fun t => counts t + errCountRange op attempt (0 + 1) t := by
      funext t
      have h := congrFun (bumpCount_merge op counts attempt 0 e hlast) t
      simpa [errCountRange] using h
    simp only [with_retry_go, hlast, hc]
    simp [errCountRange]
  | succ r ih =>
    intro attempt counts sleeps e hfail hlast
    have h0 : isErr (op attempt) = true := by
      have := hfail 0 (by omega)
      simpa using this
    obtain ⟨e0, hE⟩ : ∃ e0, op attempt = Except.error e0 := by
      cases hcase : op attempt with
      | ok w => rw [hcase] at h0; simp [isErr] at h0
      | error e0 => exact ⟨e0, rfl⟩
    have hrec := ih (attempt + 1) (bumpCount counts e0)
      (sleeps ++ [b * 2 ^ attempt]) e
      (fun i hi => by
        have := hfail (i + 1) (by omega)
        have harith : attempt + (i + 1) = attempt + 1 + i := by omega
        rwa [harith] at this)
      (by
        have harith : attempt + (r + 1) = attempt + 1 + r := by omega
        rwa [harith] at hlast)
    simp only [with_retry_go, hE]
    rw [hrec, bumpCount_merge op counts attempt (r + 1) e0 hE,
      sleeps_merge b sleeps attempt r]
    have harith : attempt + 1 + r + 1 = attempt + (r + 1) + 1 := by omega
    rw [harith]

theorem with_retry_go_calls_le {α : Type} (op : Nat → Except String α) (b : ℚ) :
    ∀ (rem attempt : Nat) (counts : String → Nat) (sleeps : List ℚ),
      (with_retry_go op b counts sleeps attempt rem).calls ≤ attempt + rem := by
  intro rem
  induction rem with
  | zero => intro attempt counts sleeps; simp [with_retry_go]
  | succ n ih =>
    intro attempt counts sleeps
    match n with
    | 0 =>
      cases hcase : op attempt <;> simp [with_retry_go, hcase]
    | (r + 1) =>
      cases hcase : op attempt with
      | ok v => simp [with_retry_go, hcase]
      | error e =>
        have := ih (attempt + 1) (bumpCount counts e) (sleeps ++ [b * 2 ^ attempt])
        simp only [with_retry_go, hcase]
        omega

theorem emit_event_eq_map {P : Type} (hs : List (EvHandler P)) (p : P) :
    emit_event hs p = hs.map (fun h => (h.1, h.2 p)) := by
  induction hs with
  | nil => rfl
  | cons h rest ih => simp [emit_event, ih]

theorem foldl_register_apply {P : Type} (regs : List (String × EvHandler P))
    (ty : String) :
    ∀ m : HandlerMap P,
      (regs.foldl (fun m r => register_handler m r.1 r.2) m) ty =
        m ty ++ (regs.filter (fun r => r.1 == ty)).map Prod.snd := by
  induction regs with
  | nil => intro m; simp
  | cons r rest ih =>
    intro m
    rw [List.foldl_cons, ih]
    by_cases h : r.1 = ty
    · have hb : (r.1 == ty) = true := by simp [h]
      simp [register_handler, List.filter_cons, hb, h]
    · have hb : (r.1 == ty) = false := by simp [h]
      have hne : ty ≠ r.1 := fun hh => h hh.symm
      simp [register_handler, List.filter_cons, hb, hne]

/-- C1 counterexample: at the concrete input where the transport opens
successfully but no `session.created` inbound event is processed within the
10-second wait, `connect` returns the ordinary non-error value `false` to its
caller (the `TimeoutError` raised by `wait_for_session` is swallowed by the
`except Exception` block), contradicting the claim that the connect attempt
is surfaced to the immediate caller as a distinct timeout condition. -/
theorem connect_timeout_swallowed :
    connect (Except.ok ()) false (Except.ok ()) = Except.ok false := rfl

/-- C1 (amended): when no `session.created` event is processed within the
wait, `_wait_for_session` raises a distinct `TimeoutError` to `connect`, but
`connect` catches every exception and converts the attempt into the ordinary
non-error return value `False` for its caller, whatever the session-update
step would have done. -/
theorem connect_timeout_behavior :
    wait_for_session false =
        Except.error (PyExc.timeoutError "Session creation timeout") ∧
      ∀ sessionUpdate : Except PyExc Unit,
        connect (Except.ok ()) false sessionUpdate = Except.ok false :=
  ⟨rfl, fun _ => rfl⟩

/-- C3: `with_retry` invokes the operation at most `maxRetries + 1` times;
if the first `k ≤ maxRetries` attempts fail and attempt `k` succeeds, it
returns the success value with per-error-type counts equal to the number of
failures of each type, backoff sleeps `baseDelay * 2 ^ i` for
`i = 0, ..., k-1` between consecutive attempts, and `k + 1` invocations; if
every attempt fails, it re-raises the outcome of the last attempt with all
`maxRetries + 1` failures counted. -/
theorem with_retry_spec (op : Nat → Except String Nat) (m : Nat) (b : ℚ) :
    (with_retry op m b).calls ≤ m + 1
    ∧ (∀ k v, k ≤ m → (∀ i, i < k → isErr (op i) = true) →
        op k = Except.ok v →
        with_retry op m b =
          ⟨Except.ok v, fun t => errCountRange op 0 k t,
            (List.range k).map (fun i => b * 2 ^ i), k + 1⟩)
    ∧ (∀ e, (∀ i, i < m → isErr (op i) = true) → op m = Except.error e →
        with_retry op m b =
          ⟨Except.error e, fun t => errCountRange op 0 (m + 1) t,
            (List.range m).map (fun i => b * 2 ^ i), m + 1⟩) := by
  refine ⟨?_, ?_, ?_⟩
  · have := with_retry_go_calls_le op b (m + 1) 0 (fun _ => 0) []
    simpa [with_retry] using this
  · intro k v hk hfail hok
    have := with_retry_go_succeeds op b k 0 (fun _ => 0) [] (m + 1) v
      (by omega) (fun i hi => by simpa using hfail i hi) (by simpa using hok)
    simpa [with_retry] using this
  · intro e hfail hlast
    have := with_retry_go_all_fail op b m 0 (fun _ => 0) [] e
      (fun i hi => by simpa using hfail i hi) (by simpa using hlast)
    simpa [with_retry] using this

/-- Witness for C3: an operation that fails twice with error type `"E"` and
then succeeds returns the success value 42 after 3 invocations, with sleeps
`baseDelay * 2 ^ 0` and `baseDelay * 2 ^ 1`, and exactly 2 recorded failures
of type `"E"`. -/
theorem with_retry_spec_witness :
    (with_retry opW 3 1 =
        ⟨Except.ok 42, fun t => errCountRange opW 0 2 t,
          (List.range 2).map (fun i => (1 : ℚ) * 2 ^ i), 3⟩)
      ∧ errCountRange opW 0 2 "E" = 2 :=
  ⟨(with_retry_spec opW 3 1).2.1 2 42 (by omega)
      (fun i hi => by simp [opW, isErr, hi])
      (by simp [opW]),
    by decide⟩

/-- C5: emitting on an `EventManager` built from any sequence of handler
registrations invokes exactly the handlers registered for the emitted type,
in registration order, recording each handler's outcome; and every handler in
the list is invoked (the trace has one entry per registered handler), so a
handler whose invocation yields an error does not prevent later-registered
handlers from running. -/
theorem emit_event_registration_order {P : Type}
    (regs : List (String × EvHandler P)) (ty : String) (p : P) :
    emit_event (registerAll regs ty) p =
        (regs.filter (fun r => r.1 == ty)).map (fun r => (r.2.1, r.2.2 p))
      ∧ ∀ hs : List (EvHandler P), (emit_event hs p).length = hs.length := by
  constructor
  · rw [emit_event_eq_map, registerAll, foldl_register_apply]
    simp [emptyHandlers, List.map_map]
  · intro hs
    rw [emit_event_eq_map]
    simp

theorem bool_eq_false_of_not_true {b : Bool} (h : ¬ b = true) : b = false := by
  cases b
  · rfl
  · exact absurd rfl h

theorem lookup_eq_none_of_not_mem_keys {α : Type} (d : List (String × α)) (k : String)
    (h : k ∉ d.map Prod.fst) : d.lookup k = none := by
  induction d with
  | nil => rfl
  | cons kv rest ih =>
    obtain ⟨a, b⟩ := kv
    rw [List.map_cons, List.mem_cons, not_or] at h
    have hkf : (k == a) = false := by
      rw [beq_eq_false_iff_ne]
      exact h.1
    rw [List.lookup_cons]
    simp only [hkf]
    exact ih h.2

theorem lookup_map_overwrite {α : Type} (d : List (String × α)) (k : String) (v : α)
    (hany : d.any (fun kv => kv.1 == k) = true) :
    (d.map (fun kv => if kv.1 == k then (k, v) else kv)).lookup k = some v := by
  induction d with
  | nil => simp at hany
  | cons kv rest ih =>
    obtain ⟨a, b⟩ := kv
    simp only [List.map_cons]
    by_cases h1 : (a == k) = true
    · rw [if_pos h1]
      exact List.lookup_cons_self
    · have h1f : (a == k) = false := bool_eq_false_of_not_true h1
      have hany2 : rest.any (fun kv => kv.1 == k) = true := by
        simp only [List.any_cons, h1f, Bool.false_or] at hany
        exact hany
      have hk2 : (k == a) = false := by
        rw [beq_eq_false_iff_ne] at h1f ⊢
        exact fun hh => h1f hh.symm
      rw [if_neg h1, List.lookup_cons]
      simp only [hk2]
      exact ih hany2

theorem lookup_map_overwrite_ne {α : Type} (d : List (String × α)) (k k2 : String)
    (v : α) (hne : k2 ≠ k) :
    (d.map (fun kv => if kv.1 == k then (k, v) else kv)).lookup k2 = d.lookup k2 := by
  induction d with
  | nil => rfl
  | cons kv rest ih =>
    obtain ⟨a, b⟩ := kv
    simp only [List.map_cons]
    by_cases h1 : (a == k) = true
    · have ha : a = k := by rwa [beq_iff_eq] at h1
      subst ha
      have hk2 : (k2 == a) = false := by
        rw [beq_eq_false_iff_ne]
        exact hne
      rw [if_pos h1, List.lookup_cons, List.lookup_cons]
      simp only [hk2]
      exact ih
    · rw [if_neg h1, List.lookup_cons, List.lookup_cons]
      cases hc : (k2 == a) with
      | true => simp only [hc]
      | false =>
        simp only [hc]
        exact ih

theorem lookup_append_singleton_ne {α : Type} (d : List (String × α)) (k k2 : String)
    (v : α) (hne : k2 ≠ k) : (d ++ [(k, v)]).lookup k2 = d.lookup k2 := by
  induction d with
  | nil =>
    have hk2 : (k2 == k) = false := by
      rw [beq_eq_false_iff_ne]
      exact hne
    rw [List.nil_append, List.lookup_cons]
    simp only [hk2]
  | cons kv rest ih =>
    obtain ⟨a, b⟩ := kv
    rw [List.cons_append, List.lookup_cons, List.lookup_cons]
    cases hc : (k2 == a) with
    | true => simp only [hc]
    | false =>
      simp only [hc]
      exact ih

theorem lookup_append_singleton_self {α : Type} (d : List (String × α)) (k : String)
    (v : α) (h : d.lookup k = none) : (d ++ [(k, v)]).lookup k = some v := by
  induction d with
  | nil =>
    rw [List.nil_append]
    exact List.lookup_cons_self
  | cons kv rest ih =>
    obtain ⟨a, b⟩ := kv
    rw [List.lookup_cons] at h
    rw [List.cons_append, List.lookup_cons]
    cases hc : (k == a) with
    | true =>
      rw [hc] at h
      simp at h
    | false =>
      rw [hc] at h
      simp only [hc]
      exact ih h

theorem any_eq_false_lookup_none {α : Type} (d : List (String × α)) (k : String)
    (h : d.any (fun kv => kv.1 == k) = false) : d.lookup k = none := by
  induction d with
  | nil => rfl
  | cons kv rest ih =>
    obtain ⟨a, b⟩ := kv
    simp only [List.any_cons, Bool.or_eq_false_iff] at h
    have hk : (k == a) = false := by
      have h1 : (a == k) = false := h.1
      rw [beq_eq_false_iff_ne] at h1 ⊢
      exact fun hh => h1 hh.symm
    rw [List.lookup_cons]
    simp only [hk]
    exact ih h.2

theorem lookup_assocSet_self {α : Type} (d : List (String × α)) (k : String) (v : α) :
    (assocSet d k v).lookup k = some v := by
  unfold assocSet
  by_cases hany : d.any (fun kv => kv.1 == k) = true
  · rw [if_pos hany]
    exact lookup_map_overwrite d k v hany
  · rw [if_neg hany]
    exact lookup_append_singleton_self d k v
      (any_eq_false_lookup_none d k (bool_eq_false_of_not_true hany))

theorem lookup_assocSet_ne {α : Type} (d : List (String × α)) (k k2 : String) (v : α)
    (hne : k2 ≠ k) : (assocSet d k v).lookup k2 = d.lookup k2 := by
  unfold assocSet
  by_cases hany : d.any (fun kv => kv.1 == k) = true
  · rw [if_pos hany]
    exact lookup_map_overwrite_ne d k k2 v hne
  · rw [if_neg hany]
    exact lookup_append_singleton_ne d k k2 v hne

theorem lookup_pyMergeInto_of_none {α : Type} (upd : List (String × α)) :
    ∀ (d : List (String × α)) (k : String), upd.lookup k = none →
      (pyMergeInto d upd).lookup k = d.lookup k := by
  induction upd with
  | nil => intro d k _; rfl
  | cons kv rest ih =>
    intro d k h
    obtain ⟨a, b⟩ := kv
    rw [List.lookup_cons] at h
    cases hc : (k == a) with
    | true =>
      rw [hc] at h
      simp at h
    | false =>
      rw [hc] at h
      have hne : k ≠ a := by rwa [beq_eq_false_iff_ne] at hc
      unfold pyMergeInto at ih ⊢
      rw [List.foldl_cons, ih (assocSet d a b) k h, lookup_assocSet_ne d a k b hne]

theorem lookup_pyMergeInto_of_some {α : Type} (upd : List (String × α)) :
    ∀ (d : List (String × α)) (k : String) (v : α),
      (upd.map Prod.fst).Nodup → upd.lookup k = some v →
      (pyMergeInto d upd).lookup k = some v := by
  induction upd with
  | nil => intro d k v _ h; simp at h
  | cons kv rest ih =>
    intro d k v hnd h
    obtain ⟨a, b⟩ := kv
    simp only [List.map_cons, List.nodup_cons] at hnd
    rw [List.lookup_cons] at h
    cases hc : (k == a) with
    | true =>
      rw [hc] at h
      have hkeq : k = a := by rwa [beq_iff_eq] at hc
      have hv : b = v := Option.some.inj h
      subst hkeq
      subst hv
      have hrest : rest.lookup k = none :=
        lookup_eq_none_of_not_mem_keys rest k hnd.1
      unfold pyMergeInto
      rw [List.foldl_cons]
      have hnone := lookup_pyMergeInto_of_none rest (assocSet d k b) k hrest
      unfold pyMergeInto at hnone
      rw [hnone, lookup_assocSet_self]
    | false =>
      rw [hc] at h
      unfold pyMergeInto at ih ⊢
      rw [List.foldl_cons]
      exact ih (assocSet d a b) k v hnd.2 h

/-- C9: `disconnect` leaves the session-created flag false, the conversation
cleared (no items, empty id index, no pending-audio marker) and the audio
buffer empty, and a second call is a no-op on that state (and cannot raise:
the websocket is already gone, so the close is skipped and all remaining
steps are pure resets). -/
theorem disconnect_idempotent (st : ClientState) :
    (disconnect st).session_created = false
    ∧ (disconnect st).conversation.items = []
    ∧ (disconnect st).conversation.item_lookup = []
    ∧ (disconnect st).conversation.pending_audio = none
    ∧ (disconnect st).audio_buffer = []
    ∧ disconnect (disconnect st) = disconnect st :=
  ⟨rfl, rfl, rfl, rfl, rfl, rfl⟩

/-- C10: the event dict built by `send_event` carries the payload's own
`type` and `event_id` values whenever the payload supplies them (the payload
is merged after the generated fields and overrides them), and carries the
generated id and the passed type only when the payload lacks those keys. -/
theorem send_event_payload_override (eid ty : String) (data : Dict)
    (hnd : (data.map Prod.fst).Nodup) :
    send_event true eid ty data = Except.ok (mkEvent eid ty data)
    ∧ (∀ v, data.lookup "type" = some v →
        (mkEvent eid ty data).lookup "type" = some v)
    ∧ (∀ v, data.lookup "event_id" = some v →
        (mkEvent eid ty data).lookup "event_id" = some v)
    ∧ (data.lookup "type" = none →
        (mkEvent eid ty data).lookup "type" = some (RVal.vstr ty))
    ∧ (data.lookup "event_id" = none →
        (mkEvent eid ty data).lookup "event_id" = some (RVal.vstr eid)) := by
  refine ⟨rfl, ?_, ?_, ?_, ?_⟩
  · intro v h
    exact lookup_pyMergeInto_of_some data _ "type" v hnd h
  · intro v h
    exact lookup_pyMergeInto_of_some data _ "event_id" v hnd h
  · intro h
    unfold mkEvent
    rw [lookup_pyMergeInto_of_none data _ "type" h]
    rfl
  · intro h
    unfold mkEvent
    rw [lookup_pyMergeInto_of_none data _ "event_id" h]
    rfl

/-- Witness for C10: with a payload supplying its own `type` and `event_id`,
the outbound event carries the payload's values, not the generated ones. -/
theorem send_event_payload_override_witness :
    (mkEvent "evt_1" "response.create" dataW).lookup "type" =
        some (RVal.vstr "custom.type")
    ∧ (mkEvent "evt_1" "response.create" dataW).lookup "event_id" =
        some (RVal.vstr "custom.id") :=
  ⟨(send_event_payload_override "evt_1" "response.create" dataW (by decide)).2.1 _ rfl,
    (send_event_payload_override "evt_1" "response.create" dataW (by decide)).2.2.1 _ rfl⟩

/-- C6: `add_tool` with a definition lacking a (truthy) name fails
immediately with a `ValueError`, and `add_tool` with an already-registered
name fails with the duplicate-tool `ValueError`; in both failure cases no
event is sent, the client state (hence the registry) is returned unchanged,
and the previously registered config for the name is still found under it. -/
theorem add_tool_failure (st : ClientState) (defn : ToolDef)
    (handler : Option (List (String × RVal) → Except String RVal)) (eid : String) :
    (pyFalsyStr defn.name = true →
      add_tool st defn handler eid =
        (Except.error (PyExc.valueError "Tool definition must include a name"), st, []))
    ∧ (∀ n cfg0, defn.name = some n → n.isEmpty = false →
        st.tools.lookup n = some cfg0 →
        add_tool st defn handler eid =
            (Except.error (PyExc.valueError ("Tool already exists: " ++ n)), st, [])
          ∧ (add_tool st defn handler eid).2.1.tools.lookup n = some cfg0) := by
  constructor
  · intro h
    unfold add_tool
    simp [h]
  · intro n cfg0 hn hne hlk
    have hmain : add_tool st defn handler eid =
        (Except.error (PyExc.valueError ("Tool already exists: " ++ n)), st, []) := by
      unfold add_tool
      rw [hn]
      simp only [pyFalsyStr, hne, Bool.false_eq_true, if_false, Option.getD_some, hlk,
        Option.isSome_some, if_true]
    refine ⟨hmain, ?_⟩
    rw [hmain]
    exact hlk

/-- Witness for C6: registering the name `"t"` on a client that already has a
tool `"t"` fails with the duplicate-tool error and leaves the original
registration in place. -/
theorem add_tool_failure_witness :
    add_tool stW6 { name := some "t", raw := [] } none "e1" =
        (Except.error (PyExc.valueError ("Tool already exists: " ++ "t")), stW6, [])
    ∧ (add_tool stW6 { name := some "t", raw := [] } none "e1").2.1.tools.lookup "t" =
        some cfg0W :=
  (add_tool_failure stW6 { name := some "t", raw := [] } none "e1").2 "t" cfg0W rfl rfl rfl

/-- C8: on a connected client, `commit_audio` with a non-empty buffer sends
the commit event then one `response.create`, stores the committed bytes as
the pending-audio marker and clears the buffer; with an empty buffer it
leaves the state unchanged and sends only the `response.create`; in every
case the sent trace contains exactly one `response.create`. -/
theorem commit_audio_spec (st : ClientState) (eid1 eid2 : String)
    (hws : st.websocket = true) :
    (st.audio_buffer ≠ [] →
      commit_audio st eid1 eid2 =
        Except.ok (commitTarget st,
          [mkEvent eid1 "input_audio_buffer.commit" [],
            mkEvent eid2 "response.create" []]))
    ∧ (st.audio_buffer = [] →
        commit_audio st eid1 eid2 = Except.ok (st, [mkEvent eid2 "response.create" []]))
    ∧ (∀ st2 evs, commit_audio st eid1 eid2 = Except.ok (st2, evs) →
        (evs.filter isRespCreate).length = 1) := by
  refine ⟨?_, ?_, ?_⟩
  · intro hne
    have hbuf : st.audio_buffer.isEmpty = false := by
      cases hb : st.audio_buffer with
      | nil => exact absurd hb hne
      | cons x xs => rfl
    unfold commit_audio
    simp [hbuf, send_event, hws, commitTarget]
  · intro he
    unfold commit_audio
    simp [he, send_event, hws]
  · intro st2 evs hok
    by_cases hbuf : st.audio_buffer.isEmpty = true
    · unfold commit_audio at hok
      simp [hbuf, send_event, hws] at hok
      rw [← hok.2]
      rfl
    · have hbf : st.audio_buffer.isEmpty = false := by simpa using hbuf
      unfold commit_audio at hok
      simp [hbf, send_event, hws, commitTarget] at hok
      rw [← hok.2]
      rfl

/-- Witness for C8: committing a buffer holding bytes `[1, 2, 3]` sends the
commit then the response request, stores the bytes and clears the buffer. -/
theorem commit_audio_spec_witness :
    commit_audio stW8 "e1" "e2" =
      Except.ok (commitTarget stW8,
        [mkEvent "e1" "input_audio_buffer.commit" [],
          mkEvent "e2" "response.create" []]) :=
  (commit_audio_spec stW8 "e1" "e2" rfl).1 (by simp [stW8])

/-- C2: for a completed function-call item whose tool name is not registered
or whose accumulated argument string fails to parse, the dispatcher sends
exactly one `conversation.item.create` carrying a `function_call_output`
item with the same call id and an output containing an `error` field,
followed by exactly one `response.create`; the dispatcher is a total
function (the outer `try`/`except` in the source), so no exception reaches
its caller. -/
theorem execute_function_call_error_resolution (tools : List (String × ToolCfg))
    (parse : String → Option RVal) (eid1 eid2 : String) (it : FItem)
    (h : lookupTool tools it.base.name = none ∨ parse (argsStringOf it) = none) :
    ∃ msg : String,
      execute_function_call true tools parse eid1 eid2 it =
        [mkEvent eid1 "conversation.item.create"
            [("item", RVal.obj [("type", RVal.vstr "function_call_output"),
              ("call_id", optStr it.base.call_id),
              ("output", RVal.obj [("error", RVal.vstr msg)])])],
          mkEvent eid2 "response.create" []] := by
  rcases h with h | h
  · refine ⟨"Unknown function: " ++ (it.base.name.getD "None"), ?_⟩
    simp only [execute_function_call, h]
    rfl
  · cases hcfg : lookupTool tools it.base.name with
    | none =>
      refine ⟨"Unknown function: " ++ (it.base.name.getD "None"), ?_⟩
      simp only [execute_function_call, hcfg]
      rfl
    | some cfg =>
      cases hh : cfg.handler with
      | none =>
        refine ⟨"Function handler not found", ?_⟩
        simp only [execute_function_call, hcfg, hh]
        rfl
      | some hf =>
        refine ⟨"Invalid JSON arguments", ?_⟩
        simp only [execute_function_call, hcfg, hh, h]
        rfl

theorem decEnc : ∀ s, s < 64 → decChar (encChar s) = some s := by decide

theorem encChar_ne_pad : ∀ s, s < 64 → encChar s ≠ '=' := by decide

theorem encChar_kept : ∀ s, s < 64 → b64KeepChar (encChar s) = true := by decide

theorem pad_kept : b64KeepChar '=' = true := by decide

theorem int16ToBytes_lt (v : Int) : ∀ x ∈ int16ToBytes v, x < 256 := by
  intro x hx
  have h1 : 0 ≤ v % 65536 := Int.emod_nonneg v (by norm_num)
  have h2 : v % 65536 < 65536 := Int.emod_lt_of_pos v (by norm_num)
  unfold int16ToBytes at hx
  rw [List.mem_cons, List.mem_singleton] at hx
  rcases hx with h | h <;> subst h <;> omega

theorem int16ListToBytes_lt : ∀ vs : List Int, ∀ x ∈ int16ListToBytes vs, x < 256 := by
  intro vs
  induction vs with
  | nil => intro x hx; simp [int16ListToBytes] at hx
  | cons v rest ih =>
    intro x hx
    unfold int16ListToBytes at hx
    rw [List.mem_append] at hx
    rcases hx with h | h
    · exact int16ToBytes_lt v x h
    · exact ih x h

theorem b64EncodeBytes_kept : ∀ bs : List Nat, (∀ x ∈ bs, x < 256) →
    ∀ ch ∈ b64EncodeBytes bs, b64KeepChar ch = true := by
  intro bs
  induction bs using b64EncodeBytes.induct with
  | case1 => intro _ ch hch; simp [b64EncodeBytes] at hch
  | case2 a =>
    intro hval ch hch
    have ha : a < 256 := hval a (by simp)
    simp only [b64EncodeBytes, List.mem_cons, List.mem_singleton, List.not_mem_nil,
      or_false] at hch
    rcases hch with h | h | h | h <;> subst h
    · exact encChar_kept _ (by omega)
    · exact encChar_kept _ (by omega)
    · exact pad_kept
    · exact pad_kept
  | case3 a b =>
    intro hval ch hch
    have ha : a < 256 := hval a (by simp)
    have hb : b < 256 := hval b (by simp)
    simp only [b64EncodeBytes, List.mem_cons, List.mem_singleton, List.not_mem_nil,
      or_false] at hch
    rcases hch with h | h | h | h <;> subst h
    · exact encChar_kept _ (by omega)
    · exact encChar_kept _ (by omega)
    · exact encChar_kept _ (by omega)
    · exact pad_kept
  | case4 a b c rest ih =>
    intro hval ch hch
    have ha : a < 256 := hval a (by simp)
    have hb : b < 256 := hval b (by simp)
    have hc : c < 256 := hval c (by simp)
    have hvr : ∀ x ∈ rest, x < 256 := fun x hx => hval x (by simp [hx])
    simp only [b64EncodeBytes, List.mem_cons] at hch
    rcases hch with h | h | h | h | h
    · subst h; exact encChar_kept _ (by omega)
    · subst h; exact encChar_kept _ (by omega)
    · subst h; exact encChar_kept _ (by omega)
    · subst h; exact encChar_kept _ (by omega)
    · exact ih hvr ch h

theorem b64EncodeBytes_length_mod : ∀ bs : List Nat,
    (b64EncodeBytes bs).length % 4 = 0 := by
  intro bs
  induction bs using b64EncodeBytes.induct with
  | case1 => rfl
  | case2 a => simp [b64EncodeBytes]
  | case3 a b => simp [b64EncodeBytes]
  | case4 a b c rest ih =>
    simp only [b64EncodeBytes, List.length_cons]
    omega

theorem b64DecodeGroups_encode : ∀ bs : List Nat, (∀ x ∈ bs, x < 256) →
    b64DecodeGroups (b64EncodeBytes bs) = some bs := by
  intro bs
  induction bs using b64EncodeBytes.induct with
  | case1 => intro _; rfl
  | case2 a =>
    intro hval
    have ha : a < 256 := hval a (by simp)
    have h1 := decEnc (a / 4) (by omega)
    have h2 := decEnc (a % 4 * 16) (by omega)
    simp [b64EncodeBytes, b64DecodeGroups, h1, h2]
    omega
  | case3 a b =>
    intro hval
    have ha : a < 256 := hval a (by simp)
    have hb : b < 256 := hval b (by simp)
    have h1 := decEnc (a / 4) (by omega)
    have h2 := decEnc (a % 4 * 16 + b / 16) (by omega)
    have h3 := decEnc (b % 16 * 4) (by omega)
    have hne3 := encChar_ne_pad (b % 16 * 4) (by omega)
    simp [b64EncodeBytes, b64DecodeGroups, h1, h2, h3, hne3]
    omega
  | case4 a b c rest ih =>
    intro hval
    have ha : a < 256 := hval a (by simp)
    have hb : b < 256 := hval b (by simp)
    have hc : c < 256 := hval c (by simp)
    have hvr : ∀ x ∈ rest, x < 256 := fun x hx => hval x (by simp [hx])
    have h1 := decEnc (a / 4) (by omega)
    have h2 := decEnc (a % 4 * 16 + b / 16) (by omega)
    have h3 := decEnc (b % 16 * 4 + c / 64) (by omega)
    have h4 := decEnc (c % 64) (by omega)
    have hne3 := encChar_ne_pad (b % 16 * 4 + c / 64) (by omega)
    have hne4 := encChar_ne_pad (c % 64) (by omega)
    have hrec := ih hvr
    simp [b64EncodeBytes, b64DecodeGroups, h1, h2, h3, h4, hne3, hne4, hrec]
    omega

theorem b64Decode_encode (bs : List Nat) (hval : ∀ x ∈ bs, x < 256) :
    b64Decode (b64EncodeBytes bs) = some bs := by
  unfold b64Decode
  rw [List.filter_eq_self.mpr (b64EncodeBytes_kept bs hval),
    if_pos (b64EncodeBytes_length_mod bs)]
  exact b64DecodeGroups_encode bs hval

/-- C4: encoding a float32 sample array to base64 and decoding it back yields
exactly the byte sequence of `convert_float32_to_pcm16` applied to the same
input (each sample clipped to [-1.0, 1.0], scaled by 32767 and truncated to
int16, laid out as little-endian byte pairs), and a second
encode (bytes path) / decode cycle on that result is the identity. -/
theorem audio_base64_roundtrip (xs : List ℚ) :
    decode_base64_audio (encode_audio_to_base64_float xs) =
        int16ListToBytes (convert_float32_to_pcm16 xs)
    ∧ decode_base64_audio (encode_audio_to_base64_bytes
          (decode_base64_audio (encode_audio_to_base64_float xs))) =
        decode_base64_audio (encode_audio_to_base64_float xs) := by
  have hval := int16ListToBytes_lt (convert_float32_to_pcm16 xs)
  have h1 : decode_base64_audio (encode_audio_to_base64_float xs) =
      int16ListToBytes (convert_float32_to_pcm16 xs) := by
    unfold decode_base64_audio encode_audio_to_base64_float
    rw [b64Decode_encode _ hval]
    rfl
  refine ⟨h1, ?_⟩
  rw [h1]
  unfold decode_base64_audio encode_audio_to_base64_bytes
  rw [b64Decode_encode _ hval]
  rfl

theorem get?_listModify_self {α : Type} :
    ∀ (xs : List α) (i : Nat) (f : α → α) (a : α),
      xs.get? i = some a → (listModify xs i f).get? i = some (f a) := by
  intro xs
  induction xs with
  | nil => intro i f a h; simp at h
  | cons x rest ih =>
    intro i f a h
    cases i with
    | zero =>
      rw [List.get?_cons_zero] at h
      have hxa := Option.some.inj h
      subst hxa
      rfl
    | succ j =>
      rw [List.get?_cons_succ] at h
      simp only [listModify, List.get?_cons_succ]
      exact ih j f a h

theorem get?_listModify_ne {α : Type} :
    ∀ (xs : List α) (i j : Nat) (f : α → α), i ≠ j →
      (listModify xs j f).get? i = xs.get? i := by
  intro xs
  induction xs with
  | nil => intro i j f _; rfl
  | cons x rest ih =>
    intro i j f hij
    cases j with
    | zero =>
      cases i with
      | zero => exact absurd rfl hij
      | succ i2 => rfl
    | succ j2 =>
      cases i with
      | zero => rfl
      | succ i2 =>
        simp only [listModify, List.get?_cons_succ]
        exact ih i2 j2 f (fun hcontra => hij (by rw [hcontra]))

theorem any_take_mono {α : Type} (l : List α) (p : α → Bool) (i j : Nat) (hij : i ≤ j)
    (h : (l.take i).any p = true) : (l.take j).any p = true := by
  have heq : (l.take j).take i = l.take i := by
    rw [List.take_take, Nat.min_eq_left hij]
  rw [← heq] at h
  rw [List.any_eq_true] at h ⊢
  obtain ⟨x, hx, hpx⟩ := h
  exact ⟨x, List.take_subset _ _ hx, hpx⟩

theorem exists_first_any {α : Type} (p : α → Bool) :
    ∀ l : List α, l.any p = true →
      ∃ k, (l.take k).any p = false ∧ (l.take (k + 1)).any p = true := by
  intro l
  induction l with
  | nil => intro h; simp at h
  | cons x xs ih =>
    intro h
    cases hx : p x with
    | true =>
      refine ⟨0, by simp, ?_⟩
      simp [hx]
    | false =>
      have hxs : xs.any p = true := by
        rw [List.any_cons, hx, Bool.false_or] at h
        exact h
      obtain ⟨k, h1, h2⟩ := ih hxs
      refine ⟨k + 1, ?_, ?_⟩
      · simp [List.take_succ_cons, List.any_cons, hx, h1]
      · simp [List.take_succ_cons, List.any_cons, hx, h2]

theorem status_step (n : String) (ix : Nat) (st : ClientState) (e : InEvent)
    (it : FItem)
    (hne : recreatesId n e = false)
    (hlk : st.conversation.item_lookup.lookup n = some ix)
    (halias : ∀ m, m ≠ n → st.conversation.item_lookup.lookup m ≠ some ix)
    (hit : st.conversation.items.get? ix = some it) :
    (handle_server_event_state st e).conversation.item_lookup.lookup n = some ix
    ∧ (∀ m, m ≠ n →
        (handle_server_event_state st e).conversation.item_lookup.lookup m ≠ some ix)
    ∧ ∃ it1 : FItem,
        (handle_server_event_state st e).conversation.items.get? ix = some it1
        ∧ it1.base.status =
            (if isDoneFor n e then some "completed" else it.base.status) := by
  have hixlt : ix < st.conversation.items.length := by
    rcases List.get?_eq_some.mp hit with ⟨hl, _⟩
    exact hl
  cases e with
  | sessionCreated => exact ⟨hlk, halias, it, hit, rfl⟩
  | speechStarted => exact ⟨hlk, halias, it, hit, rfl⟩
  | errorEvt => exact ⟨hlk, halias, it, hit, rfl⟩
  | otherEvt ty => exact ⟨hlk, halias, it, hit, rfl⟩
  | itemCreated item? =>
    cases item? with
    | none => exact ⟨hlk, halias, it, hit, rfl⟩
    | some it2 =>
      have hne2 : (it2.id == some n) = false := by
        simpa [recreatesId] using hne
      by_cases hfal : pyFalsyStr it2.id = true
      · have hconv : (st.conversation.add_item it2).1 = st.conversation := by
          unfold ConvState.add_item
          rw [if_pos hfal]
        simp only [handle_server_event_state, hconv]
        exact ⟨hlk, halias, it, hit, rfl⟩
      · have hfalf : pyFalsyStr it2.id = false := bool_eq_false_of_not_true hfal
        obtain ⟨s, hs⟩ : ∃ s, it2.id = some s := by
          cases hid : it2.id with
          | none => rw [hid] at hfalf; simp [pyFalsyStr] at hfalf
          | some s => exact ⟨s, rfl⟩
        have hsn : s ≠ n := by
          intro hcontra
          rw [hs, hcontra] at hne2
          simp at hne2
        have hfss : pyFalsyStr (some s) = false := by
          rw [← hs]
          exact hfalf
        simp only [handle_server_event_state, ConvState.add_item, hs, Option.getD_some,
          hfss, Bool.false_eq_true, if_false]
        refine ⟨?_, ?_, ?_⟩
        · rw [lookup_assocSet_ne _ s n _ (Ne.symm hsn)]
          exact hlk
        · intro m hm
          by_cases hms : m = s
          · subst hms
            rw [lookup_assocSet_self]
            intro hcontra
            have := Option.some.inj hcontra
            omega
          · rw [lookup_assocSet_ne _ s m _ hms]
            exact halias m hm
        · refine ⟨it, ?_, rfl⟩
          rw [List.get?_append hixlt]
          exact hit
  | audioDelta iid delta =>
    simp only [handle_server_event_state]
    by_cases hf : (pyFalsyStr iid || pyFalsyStr delta) = true
    · rw [if_pos hf]
      exact ⟨hlk, halias, it, hit, rfl⟩
    · rw [if_neg hf]
      cases hjx : st.conversation.item_lookup.lookup (iid.getD "") with
      | none =>
        simp only [ConvState.update_item_audio, hjx]
        exact ⟨hlk, halias, it, hit, rfl⟩
      | some jx =>
        simp only [ConvState.update_item_audio, hjx]
        refine ⟨hlk, halias, ?_⟩
        by_cases hsn : iid.getD "" = n
        · rw [hsn] at hjx
          rw [hjx] at hlk
          have hjeq : jx = ix := Option.some.inj hlk
          subst hjeq
          exact ⟨_, get?_listModify_self _ _ _ _ hit, rfl⟩
        · have hne3 := halias (iid.getD "") hsn
          have hjne : ix ≠ jx := fun hcontra => hne3 (by rw [← hcontra] at hjx; exact hjx)
          rw [get?_listModify_ne _ _ _ _ hjne]
          exact ⟨it, hit, rfl⟩
  | textDelta iid delta =>
    simp only [handle_server_event_state]
    by_cases hf : (pyFalsyStr iid || pyFalsyStr delta) = true
    · rw [if_pos hf]
      exact ⟨hlk, halias, it, hit, rfl⟩
    · rw [if_neg hf]
      cases hjx : st.conversation.item_lookup.lookup (iid.getD "") with
      | none =>
        simp only [ConvState.update_item_text, hjx]
        exact ⟨hlk, halias, it, hit, rfl⟩
      | some jx =>
        simp only [ConvState.update_item_text, hjx]
        refine ⟨hlk, halias, ?_⟩
        by_cases hsn : iid.getD "" = n
        · rw [hsn] at hjx
          rw [hjx] at hlk
          have hjeq : jx = ix := Option.some.inj hlk
          subst hjeq
          exact ⟨_, get?_listModify_self _ _ _ _ hit, rfl⟩
        · have hne3 := halias (iid.getD "") hsn
          have hjne : ix ≠ jx := fun hcontra => hne3 (by rw [← hcontra] at hjx; exact hjx)
          rw [get?_listModify_ne _ _ _ _ hjne]
          exact ⟨it, hit, rfl⟩
  | transcriptDelta iid delta =>
    simp only [handle_server_event_state]
    by_cases hf : (pyFalsyStr iid || pyFalsyStr delta) = true
    · rw [if_pos hf]
      exact ⟨hlk, halias, it, hit, rfl⟩
    · rw [if_neg hf]
      cases hjx : st.conversation.item_lookup.lookup (iid.getD "") with
      | none =>
        simp only [ConvState.update_item_transcript, hjx]
        exact ⟨hlk, halias, it, hit, rfl⟩
      | some jx =>
        simp only [ConvState.update_item_transcript, hjx]
        refine ⟨hlk, halias, ?_⟩
        by_cases hsn : iid.getD "" = n
        · rw [hsn] at hjx
          rw [hjx] at hlk
          have hjeq : jx = ix := Option.some.inj hlk
          subst hjeq
          exact ⟨_, get?_listModify_self _ _ _ _ hit, rfl⟩
        · have hne3 := halias (iid.getD "") hsn
          have hjne : ix ≠ jx := fun hcontra => hne3 (by rw [← hcontra] at hjx; exact hjx)
          rw [get?_listModify_ne _ _ _ _ hjne]
          exact ⟨it, hit, rfl⟩
  | fnArgsDelta iid delta =>
    simp only [handle_server_event_state]
    by_cases hf : (pyFalsyStr iid || pyFalsyStr delta) = true
    · rw [if_pos hf]
      exact ⟨hlk, halias, it, hit, rfl⟩
    · rw [if_neg hf]
      cases hjx : st.conversation.item_lookup.lookup (iid.getD "") with
      | none =>
        exact ⟨hlk, halias, it, hit, rfl⟩
      | some jx =>
        refine ⟨hlk, halias, ?_⟩
        by_cases hsn : iid.getD "" = n
        · rw [hsn] at hjx
          rw [hjx] at hlk
          have hjeq : jx = ix := Option.some.inj hlk
          subst hjeq
          exact ⟨_, get?_listModify_self _ _ _ _ hit, rfl⟩
        · have hne3 := halias (iid.getD "") hsn
          have hjne : ix ≠ jx := fun hcontra => hne3 (by rw [← hcontra] at hjx; exact hjx)
          rw [get?_listModify_ne _ _ _ _ hjne]
          exact ⟨it, hit, rfl⟩
  | outputItemDone item? =>
    cases item? with
    | none => exact ⟨hlk, halias, it, hit, rfl⟩
    | some it2 =>
      cases hid : it2.id with
      | none =>
        simp only [handle_server_event_state, hid]
        have hdonef : isDoneFor n (InEvent.outputItemDone (some it2)) = false := by
          simp [isDoneFor, hid]
        rw [hdonef]
        exact ⟨hlk, halias, it, hit, rfl⟩
      | some s =>
        simp only [handle_server_event_state, hid]
        by_cases hsn : s = n
        · subst hsn
          have hdone : isDoneFor s (InEvent.outputItemDone (some it2)) = true := by
            simp [isDoneFor, hid]
          rw [hdone, hlk]
          refine ⟨hlk, halias, ?_⟩
          exact ⟨_, get?_listModify_self _ _ _ _ hit, rfl⟩
        · have hdonef : isDoneFor n (InEvent.outputItemDone (some it2)) = false := by
            simp [isDoneFor, hid, hsn]
          rw [hdonef]
          cases hjx : st.conversation.item_lookup.lookup s with
          | none => exact ⟨hlk, halias, it, hit, rfl⟩
          | some jx =>
            refine ⟨hlk, halias, ?_⟩
            have hne3 := halias s hsn
            have hjne : ix ≠ jx := fun hcontra => hne3 (by rw [← hcontra] at hjx; exact hjx)
            rw [get?_listModify_ne _ _ _ _ hjne]
            exact ⟨it, hit, rfl⟩

theorem status_run (n : String) (ix : Nat) :
    ∀ (es : List InEvent) (st : ClientState) (it : FItem),
      (∀ e ∈ es, recreatesId n e = false) →
      st.conversation.item_lookup.lookup n = some ix →
      (∀ m, m ≠ n → st.conversation.item_lookup.lookup m ≠ some ix) →
      st.conversation.items.get? ix = some it →
      (runEvents st es).conversation.item_lookup.lookup n = some ix
      ∧ ∃ it1, (runEvents st es).conversation.items.get? ix = some it1
          ∧ it1.base.status =
              (if es.any (isDoneFor n) then some "completed" else it.base.status) := by
  intro es
  induction es with
  | nil =>
    intro st it _ hlk _ hit
    exact ⟨hlk, it, hit, rfl⟩
  | cons e rest ih =>
    intro st it hnore hlk halias hit
    obtain ⟨hlk1, halias1, it1, hit1, hst1⟩ :=
      status_step n ix st e it (hnore e (by simp)) hlk halias hit
    have hrest : ∀ x ∈ rest, recreatesId n x = false :=
      fun x hx => hnore x (by simp [hx])
    obtain ⟨hlk2, it2, hit2, hst2⟩ :=
      ih (handle_server_event_state st e) it1 hrest hlk1 halias1 hit1
    refine ⟨hlk2, it2, hit2, ?_⟩
    rw [hst2, hst1]
    cases hd : isDoneFor n e with
    | true => simp [List.any_cons, hd]
    | false => simp [List.any_cons, hd]

/-- C7 counterexample: `add_item` stores the incoming item's own status — for
an item carrying no status field the stored status is absent (`none`), not
`"pending"`, already at creation, before any inbound event is processed. -/
theorem item_status_not_pending :
    ((convInit.add_item itemA).1.get_item (some "item_1")).map (fun fi => fi.base.status) ≠
        some (some "pending")
    ∧ ((convInit.add_item itemA).1.get_item (some "item_1")).map (fun fi => fi.base.status) =
        some none := by
  refine ⟨?_, rfl⟩
  decide

/-- C7 (amended): for an item stored at a lookup-consistent position whose id
is never re-created by the processed events, the item's status stays exactly
the status the supplied item carried (not necessarily `pending`) until a
`response.output_item.done` event for its id is processed, after which it is
`completed`; consequently, when the initial status is not already
`completed`, the non-completed-to-completed transition happens at most once,
and exactly once as soon as some done event for the id is processed. -/
theorem item_status_characterization (st : ClientState) (n : String) (ix : Nat)
    (it0 : FItem) (es : List InEvent)
    (hlk : st.conversation.item_lookup.lookup n = some ix)
    (halias : ∀ m, m ≠ n → st.conversation.item_lookup.lookup m ≠ some ix)
    (hit : st.conversation.items.get? ix = some it0)
    (hnore : ∀ e ∈ es, recreatesId n e = false) :
    (∀ k, statusView (runEvents st (es.take k)) n =
        some (if (es.take k).any (isDoneFor n) then some "completed"
          else it0.base.status))
    ∧ (it0.base.status ≠ some "completed" →
        ∀ k1 k2, transitionAt st es n k1 → transitionAt st es n k2 → k1 = k2)
    ∧ (it0.base.status ≠ some "completed" → es.any (isDoneFor n) = true →
        ∃ k, transitionAt st es n k) := by
  have hchar : ∀ k, statusView (runEvents st (es.take k)) n =
      some (if (es.take k).any (isDoneFor n) then some "completed"
        else it0.base.status) := by
    intro k
    have hsub : ∀ e ∈ es.take k, recreatesId n e = false :=
      fun e he => hnore e (List.take_subset k es he)
    obtain ⟨hlk2, it1, hit1, hst1⟩ :=
      status_run n ix (es.take k) st it0 hsub hlk halias hit
    have hgi : (runEvents st (es.take k)).conversation.get_item (some n) = some it1 := by
      show (List.lookup n (runEvents st (es.take k)).conversation.item_lookup).bind
          (fun jx => (runEvents st (es.take k)).conversation.items.get? jx) = some it1
      rw [hlk2, Option.some_bind]
      exact hit1
    unfold statusView
    rw [hgi]
    simp [hst1]
  have htrans_iff : it0.base.status ≠ some "completed" →
      ∀ k, transitionAt st es n k ↔
        ((es.take k).any (isDoneFor n) = false
          ∧ (es.take (k + 1)).any (isDoneFor n) = true) := by
    intro h0 k
    unfold transitionAt
    rw [hchar k, hchar (k + 1)]
    constructor
    · rintro ⟨h1, h2⟩
      cases ha : (es.take k).any (isDoneFor n) with
      | true => rw [ha] at h1; simp at h1
      | false =>
        cases hb : (es.take (k + 1)).any (isDoneFor n) with
        | true => exact ⟨rfl, rfl⟩
        | false =>
          rw [hb] at h2
          simp at h2
          exact absurd h2 h0
    · rintro ⟨h1, h2⟩
      rw [h1, h2]
      constructor
      · simp
        exact h0
      · simp
  refine ⟨hchar, ?_, ?_⟩
  · intro h0 k1 k2 ht1 ht2
    rw [htrans_iff h0 k1] at ht1
    rw [htrans_iff h0 k2] at ht2
    by_contra hne12
    rcases Nat.lt_or_ge k1 k2 with hlt | hge
    · have := any_take_mono es (isDoneFor n) (k1 + 1) k2 (by omega) ht1.2
      rw [this] at ht2
      exact absurd ht2.1 (by simp)
    · have hlt2 : k2 < k1 := by omega
      have := any_take_mono es (isDoneFor n) (k2 + 1) k1 (by omega) ht2.2
      rw [this] at ht1
      exact absurd ht1.1 (by simp)
  · intro h0 hany
    obtain ⟨k, h1, h2⟩ := exists_first_any (isDoneFor n) es hany
    refine ⟨k, ?_⟩
    rw [htrans_iff h0 k]
    exact ⟨h1, h2⟩

/-- Witness for the amended C7: on a client holding only the item `item_1`
(initial status absent), processing one `response.output_item.done` for
`item_1` makes its status `completed`. -/
theorem item_status_characterization_witness :
    statusView (runEvents stW7 [InEvent.outputItemDone (some itemA)]) "item_1" =
      some (some "completed") := by
  have hlk : stW7.conversation.item_lookup.lookup "item_1" = some 0 := rfl
  have halias : ∀ m, m ≠ "item_1" →
      stW7.conversation.item_lookup.lookup m ≠ some 0 := by
    intro m hm h
    have h2 : List.lookup m [("item_1", (0 : Nat))] = some 0 := h
    rw [List.lookup_cons] at h2
    cases hc : (m == "item_1") with
    | true => exact hm (by rwa [beq_iff_eq] at hc)
    | false => rw [hc] at h2; simp at h2
  have hit : stW7.conversation.items.get? 0 = some itemAF := rfl
  have hnore : ∀ e ∈ [InEvent.outputItemDone (some itemA)],
      recreatesId "item_1" e = false := by
    intro e he
    rw [List.mem_singleton] at he
    subst he
    rfl
  have h := (item_status_characterization stW7 "item_1" 0 itemAF
      [InEvent.outputItemDone (some itemA)] hlk halias hit hnore).1 1
  simpa [isDoneFor, itemA, itemAF] using h

/-- Witness for C2: a function-call item naming the unregistered tool
`"nope"` yields exactly the error output event (same call id) and one
follow-up `response.create`. -/
theorem execute_function_call_error_resolution_witness :
    ∃ msg : String,
      execute_function_call true [] (fun _ => none) "e1" "e2" itW =
        [mkEvent "e1" "conversation.item.create"
            [("item", RVal.obj [("type", RVal.vstr "function_call_output"),
              ("call_id", optStr itW.base.call_id),
              ("output", RVal.obj [("error", RVal.vstr msg)])])],
          mkEvent "e2" "response.create" []] :=
  execute_function_call_error_resolution [] (fun _ => none) "e1" "e2" itW (Or.inl rfl)

end Realtime
